import Mathlib

/-!
Verification of the Concatenator repository (src/concatenator.py) against its
natural-language specification.  The Python source is shallowly embedded:

* pure helpers (`is_allowed`, its allowlists, `os.path.basename`,
  `os.path.splitext`) become Lean functions on `String`;
* filesystem reads are modelled by an oracle `read : String → Option String`
  (`some t` = the file opens and decodes as UTF-8 text `t`, `none` = any
  exception during open/read, which the code catches and skips);
* the final output write is modelled by a boolean `writeOk`;
* OS path functions used by the list-file importer (`os.path.expanduser`,
  `expandvars`, `isabs`, `join`, `normpath`, `abspath`, `normcase`,
  `os.path.isfile`) are fields of a `World` record, since their behaviour
  depends on the host platform and filesystem.
-/

namespace Concatenator

/-- The constant ALLOWED_EXTS from src/concatenator.py lines 13-22: allowed
lowercase extensions, each including the leading dot. -/
def ALLOWED_EXTS : List String :=
  [".txt", ".md", ".markdown", ".rst", ".html", ".htm", ".xml", ".csv", ".tsv",
   ".ini", ".cfg", ".conf", ".properties", ".env",
   ".json", ".yaml", ".yml", ".toml",
   ".py", ".js", ".jsx", ".ts", ".tsx",
   ".java", ".c", ".cpp", ".h", ".hpp", ".cs", ".go", ".rb", ".php", ".swift", ".kt",
   ".sh", ".bash", ".zsh", ".fish", ".ps1", ".bat",
   ".sql", ".pl", ".lua", ".r", ".scala", ".clj", ".groovy", ".dart",
   ".css", ".scss", ".less"]

/-- The constant ALLOWED_NAMES from src/concatenator.py lines 24-27: special
file names treated as text even without an extension. -/
def ALLOWED_NAMES : List String :=
  ["license", "makefile", "dockerfile",
   ".editorconfig", ".gitattributes", ".gitignore", ".dockerignore"]

/-- Model of `os.path.basename` on POSIX: everything after the last path
separator. -/
def basename (p : String) : String :=
  String.mk ((p.data.reverse.takeWhile (fun c => c ≠ '/')).reverse)

/-- ASCII lowercasing of one character, as `str.lower()` does on ASCII input
(codes 65-90 map to 97-122, everything else is unchanged). -/
def lowerChar (c : Char) : Char :=
  if 65 ≤ c.toNat ∧ c.toNat ≤ 90 then Char.ofNat (c.toNat + 32) else c

/-- Model of `str.lower()` (restricted to its ASCII action). -/
def lowerStr (s : String) : String :=
  String.mk (s.data.map lowerChar)

/-- The extension component returned by `os.path.splitext`: the suffix starting
at the last dot, provided at least one non-dot character occurs before that dot
in the base name (so dotfiles like ".gitignore" have an empty extension). -/
def splitextExt (s : String) : String :=
  let r := s.data.reverse
  let a := r.takeWhile (fun c => c ≠ '.')
  match r.dropWhile (fun c => c ≠ '.') with
  | [] => ""
  | _ :: b => if b.any (fun c => c ≠ '.') then String.mk ('.' :: a.reverse) else ""

/-- Embedding of `is_allowed` from src/concatenator.py lines 29-36. -/
def is_allowed (path : String) : Bool :=
  let name := basename path
  let lower_name := lowerStr name
  if ALLOWED_NAMES.contains lower_name then
    true
  else
    ALLOWED_EXTS.contains (splitextExt lower_name)

/-- Errors `concatenate_file_list` can raise: the `ValueError` of line 70 and
the `IOError` of line 94. -/
inductive ConcatErr where
  | valueError (msg : String)
  | ioError
deriving DecidableEq

/-- Model of `''.join` on a list of strings. -/
def joinAll : List String → String
  | [] => ""
  | s :: rest => s ++ joinAll rest

/-- Loop body of `concatenate_file_list` (src/concatenator.py lines 75-86):
on a successful read, append the header, the text and the separator to
`output_content`; on any exception, print and continue (append nothing). -/
def concatStep (read : String → Option String) (acc : List String)
    (file_path : String) : List String :=
  match read file_path with
  | some text =>
      acc ++ ["--- File: " ++ basename file_path ++ " ---\n\n", text, "\n\n"]
  | none => acc

/-- Shallow embedding of `concatenate_file_list` (src/concatenator.py lines
61-94).  `read p = some text` models `open(p).read()` succeeding with `text`;
`read p = none` models the `except` branch (the file is skipped, lines 84-86).
`writeOk` tells whether the final output write succeeds.  `.ok s` means the
call returned normally after writing exactly `s` to the output file; the
`.error (.valueError _)` branch occurs before any write is attempted. -/
def concatenate_file_list (read : String → Option String) (writeOk : Bool)
    (file_paths : List String) : Except ConcatErr String :=
  if file_paths = [] then
    .error (.valueError "No files to concatenate.")
  else
    let output_content := file_paths.foldl (concatStep read) []
    if writeOk then .ok (joinAll output_content) else .error .ioError

/-- Refinement comparison target for the output format, written from the
spec's words (§4.4 / §6): for each successfully read file, a header line
`--- File: <name> ---`, a blank line, the file's full text, then two newline
separators; nothing for a file whose read fails. -/
def specChunk (read : String → Option String) (p : String) : String :=
  match read p with
  | some t => "--- File: " ++ basename p ++ " ---\n" ++ "\n" ++ t ++ "\n\n"
  | none => ""

/-- The whole output per the spec's words: the chunks in list order. -/
def spec_output (read : String → Option String) (paths : List String) : String :=
  joinAll (paths.map (specChunk read))

/-!
List-file importer (`parse_file_list`, src/concatenator.py lines 302-389).
The `os.path` functions it calls depend on the host platform, the process
environment and the filesystem, so they are fields of a `World` record; the
per-line control flow and the classification logic are embedded concretely.
-/

/-- Host-dependent path functions used by `parse_file_list`. -/
structure World where
  expanduser : String → String
  expandvars : String → String
  isabs : String → Bool
  join : String → String → String
  normpath : String → String
  abspath : String → String
  normcase : String → String
  isfile : String → Bool

/-- Embedding of the local helper `norm` (src/concatenator.py lines 311-312):
`os.path.normcase(os.path.normpath(os.path.abspath(p)))`. -/
def norm (w : World) (p : String) : String :=
  w.normcase (w.normpath (w.abspath p))

/-- Characters removed by `str.strip()` with no argument (the ASCII whitespace
characters: space, tab, newline, carriage return, vertical tab, form feed). -/
def isStripChar (c : Char) : Bool :=
  c.toNat = 32 || c.toNat = 9 || c.toNat = 10 || c.toNat = 13 ||
  c.toNat = 11 || c.toNat = 12

/-- Model of `str.strip()`: drop leading and trailing whitespace. -/
def pyStrip (s : String) : String :=
  String.mk (((s.data.dropWhile isStripChar).reverse.dropWhile isStripChar).reverse)

/-- Test whether a string's first character is `c` (Python `startswith` for a
single-character argument; false on the empty string). -/
def startsWithChar (s : String) (c : Char) : Bool :=
  match s.data with
  | [] => false
  | d :: _ => d = c

/-- Test whether a string's last character is `c` (Python `endswith` for a
single-character argument; false on the empty string). -/
def endsWithChar (s : String) (c : Char) : Bool :=
  match s.data.getLast? with
  | none => false
  | some d => d = c

/-- The straight single-quote character. -/
def squote : Char := Char.ofNat 39

/-- Quote stripping from src/concatenator.py lines 353-354: if the line both
starts and ends with a straight double quote, or both starts and ends with a
straight single quote, drop the first and last characters (Python
`line[1:-1]`; on a one-character quote this leaves the empty string, exactly
as in Python). -/
def stripQuotes (line : String) : String :=
  if (startsWithChar line '"' && endsWithChar line '"') ||
     (startsWithChar line squote && endsWithChar line squote) then
    String.mk ((line.data.drop 1).dropLast)
  else
    line

/-- Path resolution from src/concatenator.py lines 359-365, applied to the
already trimmed, quote-stripped and expanded line text: join with the list
file's directory when relative, then `os.path.abspath(os.path.normpath(·))`. -/
def resolveLine (w : World) (base_dir : String) (line : String) : String :=
  let candidate := if w.isabs line then line else w.join base_dir line
  w.abspath (w.normpath candidate)

/-- Disposition of one manifest line in the loop of src/concatenator.py lines
345-382. -/
inductive LineOutcome where
  | skipBlank
  | skipComment
  | skippedNotAllowed (text : String)
  | notFound (text : String)
  | resolved (candidate : String)
deriving DecidableEq

/-- Per-line processing of `parse_file_list` up to (but not including) the
duplicate check: trim, skip blanks and comments, strip one layer of quotes,
expand `~` and environment variables, resolve, classify by type, then check
existence (src/concatenator.py lines 345-375). -/
def processLine (w : World) (base_dir : String) (raw : String) : LineOutcome :=
  let line := pyStrip raw
  if line = "" then
    .skipBlank
  else if startsWithChar line '#' || startsWithChar line ';' then
    .skipComment
  else
    let line := w.expandvars (w.expanduser (stripQuotes line))
    let candidate := resolveLine w base_dir line
    if !(is_allowed candidate) then
      .skippedNotAllowed line
    else if !(w.isfile candidate) then
      .notFound line
    else
      .resolved candidate

/-- The result dict of `parse_file_list` (src/concatenator.py lines 384-389). -/
structure Report where
  added_paths : List String
  already_present : List String
  not_found : List String
  skipped_not_allowed : List String
deriving DecidableEq

/-- One iteration of the loop of src/concatenator.py lines 345-382, including
the duplicate check of lines 377-382: `existing` is the set of normalized
already-selected paths, and a resolved candidate whose normalized form matches
`existing` or an earlier addition goes to `already_present`. -/
def stepLine (w : World) (base_dir : String) (existing : List String)
    (st : Report) (raw : String) : Report :=
  match processLine w base_dir raw with
  | .skipBlank => st
  | .skipComment => st
  | .skippedNotAllowed t =>
      { st with skipped_not_allowed := st.skipped_not_allowed ++ [t] }
  | .notFound t =>
      { st with not_found := st.not_found ++ [t] }
  | .resolved candidate =>
      let n := norm w candidate
      if existing.contains n || st.added_paths.any (fun p => norm w p == n) then
        { st with already_present := st.already_present ++ [candidate] }
      else
        { st with added_paths := st.added_paths ++ [candidate] }

/-- Embedding of the line-processing part of `parse_file_list`
(src/concatenator.py lines 310-389) on an already decoded list of lines.
`selected_files` is the current selection (`self.selected_files`) and
`base_dir` is the directory containing the list file. -/
def parse_file_list (w : World) (selected_files : List String)
    (base_dir : String) (lines : List String) : Report :=
  let existing := selected_files.map (norm w)
  lines.foldl (stepLine w base_dir existing) ⟨[], [], [], []⟩

/-- Outcome of opening and decoding the list file under one candidate
encoding: success with the decoded lines, a `UnicodeDecodeError` (caught, the
loop tries the next encoding), or any other exception (re-raised,
src/concatenator.py lines 331-333). -/
inductive Attempt where
  | ok (lines : List String)
  | unicodeError
  | otherError

/-- The decode loop of src/concatenator.py lines 317-334: try each encoding in
order; `.ok (some ls)` is the first success, `.ok none` means every encoding
raised `UnicodeDecodeError` (so `lines` stays empty and `last_err` is set),
`.error ()` models a non-decode exception being re-raised. -/
def readListLines (attempt : String → Attempt) : List String → Except Unit (Option (List String))
  | [] => .ok none
  | enc :: rest =>
    match attempt enc with
    | .ok ls => .ok (some ls)
    | .unicodeError => readListLines attempt rest
    | .otherError => .error ()

/-- The encoding fallback chain of src/concatenator.py lines 319-320, with
`preferred` standing for `locale.getpreferredencoding(False) or "cp1252"`. -/
def encodingsList (preferred : String) : List String :=
  ["utf-8-sig", preferred, "cp1252", "latin-1"]

/-- Embedding of the whole of `parse_file_list` including the decode loop
(src/concatenator.py lines 302-389).  When every encoding fails to decode, the
source shows an error dialog and returns the dict with all four lists empty
(lines 335-338); `.error ()` models a re-raised non-decode exception. -/
def parse_file_list_full (w : World) (preferred : String)
    (attempt : String → Attempt) (selected_files : List String)
    (base_dir : String) : Except Unit Report :=
  match readListLines attempt (encodingsList preferred) with
  | .error () => .error ()
  | .ok none => .ok ⟨[], [], [], []⟩
  | .ok (some lines) => .ok (parse_file_list w selected_files base_dir lines)

/-- A non-blank, non-comment manifest line (the lines the loop of
src/concatenator.py lines 345-382 does not silently skip). -/
def effectiveLine (raw : String) : Bool :=
  let line := pyStrip raw
  !(line == "") && !(startsWithChar line '#' || startsWithChar line ';')

/-- Total number of entries recorded in the four lists of a report. -/
def reportTotal (r : Report) : Nat :=
  r.added_paths.length + r.already_present.length +
  r.not_found.length + r.skipped_not_allowed.length

/-- The world with identity path functions, an environment with no expansions,
every path absolute, and every path an existing regular file; used to evaluate
the importer on concrete inputs. -/
def idWorld : World :=
  ⟨fun s => s, fun s => s, fun _ => true, fun b s => b ++ "/" ++ s,
   fun s => s, fun s => s, fun s => s, fun _ => true⟩

/-!
Natural-order comparator.  The implementation is NOT part of this repository:
src/concatenator.py imports `natsorted` from the external natsort library
(lines 7-10) and calls it in `concatenate_text_files` (line 53) and
`sort_files` (line 453).  Only its caller is in src/, so the comparator below
is modelled from the spec's words (§4.2).
-/

/-- Modelled from the spec: digit-character test used by the tokenizer of the
NaturalOrderComparator (whose implementation, the natsort library, is missing
from this repository's sources). -/
def digChar (c : Char) : Bool :=
  decide (48 ≤ c.toNat ∧ c.toNat ≤ 57)

/-- Modelled from the spec: tokenize a string into maximal alternating runs of
digit characters and non-digit characters, preserving order (spec §4.2); each
run carries a tag telling whether it is a digit run. -/
def runsOf : List Char → List (Bool × List Char)
  | [] => []
  | c :: cs =>
    match runsOf cs with
    | [] => [(digChar c, [c])]
    | (b, r) :: rest =>
      if digChar c = b then (b, c :: r) :: rest
      else (digChar c, [c]) :: (b, r) :: rest

/-- Numeric value of a digit run; leading zeros do not affect the magnitude
(spec §4.2). -/
def numVal (r : List Char) : Nat :=
  r.foldl (fun a c => a * 10 + (c.toNat - 48)) 0

/-- Three-way comparison of naturals. -/
def cmpNat (a b : Nat) : Ordering :=
  if a < b then .lt else if b < a then .gt else .eq

/-- Lexical comparison of two character runs by code point. -/
def cmpChars : List Char → List Char → Ordering
  | [], [] => .eq
  | [], _ :: _ => .lt
  | _ :: _, [] => .gt
  | a :: as, b :: bs =>
    match cmpNat a.toNat b.toNat with
    | .eq => cmpChars as bs
    | o => o

/-- Modelled from the spec: comparison of one token against one token — digit
runs by numeric value, non-digit runs lexically by code point, lowercased
first unless the configurable `caseSensitive` option is chosen (spec §4.2
makes case-insensitive the default).  The spec leaves the digit-run versus
non-digit-run case open; a digit run is ordered first. -/
def cmpRun (caseSensitive : Bool) : Bool × List Char → Bool × List Char → Ordering
  | (true, r1), (true, r2) => cmpNat (numVal r1) (numVal r2)
  | (false, r1), (false, r2) =>
    if caseSensitive then cmpChars r1 r2
    else cmpChars (r1.map lowerChar) (r2.map lowerChar)
  | (true, _), (false, _) => .lt
  | (false, _), (true, _) => .gt

/-- Modelled from the spec: token-by-token comparison; when every shared token
compares equal, the shorter token sequence is less (spec §4.2). -/
def cmpRuns (caseSensitive : Bool) : List (Bool × List Char) → List (Bool × List Char) → Ordering
  | [], [] => .eq
  | [], _ :: _ => .lt
  | _ :: _, [] => .gt
  | t1 :: ts1, t2 :: ts2 =>
    match cmpRun caseSensitive t1 t2 with
    | .eq => cmpRuns caseSensitive ts1 ts2
    | o => o

/-- Modelled from the spec: the natural-order comparison with its default
options, in particular case-insensitive comparison of non-digit runs. -/
def natCompare (a b : String) : Ordering :=
  cmpRuns false (runsOf a.data) (runsOf b.data)

/-- Read oracle for the three-file example of the spec (§8): `a.txt` holds
"A", `b.txt` holds "B", `c.md` holds "C". -/
def exampleRead : String → Option String := fun p =>
  if p = "a.txt" then some "A"
  else if p = "b.txt" then some "B"
  else if p = "c.md" then some "C"
  else none

/-- Read oracle where `a.txt` and `c.md` exist but nothing else does. -/
def exampleRead2 : String → Option String := fun p =>
  if p = "a.txt" then some "A"
  else if p = "c.md" then some "C"
  else none

end Concatenator

namespace Concatenator

lemma joinAll_append (l₁ l₂ : List String) :
    joinAll (l₁ ++ l₂) = joinAll l₁ ++ joinAll l₂ := by
  induction l₁ with
  | nil => simp [joinAll]
  | cons s t ih => simp [joinAll, ih, String.append_assoc]

lemma header_lit (X : String) : (" ---\n" : String) ++ ("\n" ++ X) = " ---\n\n" ++ X := by
  rw [← String.append_assoc]
  congr 1

lemma joinAll_concatStep (read : String → Option String) (paths : List String) :
    ∀ acc : List String,
      joinAll (paths.foldl (concatStep read) acc) = joinAll acc ++ spec_output read paths := by
  induction paths with
  | nil => intro acc; simp [spec_output, joinAll]
  | cons p ps ih =>
    intro acc
    rw [List.foldl_cons, ih]
    cases hr : read p with
    | none => simp [concatStep, hr, spec_output, specChunk, joinAll]
    | some t =>
      simp [concatStep, hr, spec_output, specChunk, joinAll, joinAll_append,
        String.append_assoc, header_lit]

lemma concat_ok (read : String → Option String) (paths : List String)
    (h : ¬ paths = []) :
    concatenate_file_list read true paths = .ok (spec_output read paths) := by
  unfold concatenate_file_list
  rw [if_neg h]
  simp [joinAll_concatStep, joinAll]

lemma spec_output_cons (read : String → Option String) (p : String) (ps : List String) :
    spec_output read (p :: ps) = specChunk read p ++ spec_output read ps := rfl

lemma spec_output_append (read : String → Option String) (l₁ l₂ : List String) :
    spec_output read (l₁ ++ l₂) = spec_output read l₁ ++ spec_output read l₂ := by
  simp [spec_output, joinAll_append]

lemma spec_output_all_none (read : String → Option String) (paths : List String)
    (hall : ∀ p ∈ paths, read p = none) : spec_output read paths = "" := by
  induction paths with
  | nil => rfl
  | cons p ps ih =>
    rw [spec_output_cons]
    have hp : read p = none := hall p (by simp)
    rw [ih (fun q hq => hall q (by simp [hq]))]
    simp [specChunk, hp]

/-- C9: the type classifier accepts "LICENSE", "makefile" and "notes.MD", and
rejects "image.png" and "archive.tar.gz" (only the final suffix ".gz" is
considered for multi-dot names, and ".gz" is not in the allowlist). -/
theorem is_allowed_examples :
    is_allowed "LICENSE" = true ∧ is_allowed "makefile" = true ∧
    is_allowed "notes.MD" = true ∧ is_allowed "image.png" = false ∧
    is_allowed "archive.tar.gz" = false := by
  decide

/-- C7: `concatenate_file_list` on an empty path list raises
`ValueError("No files to concatenate.")`, and in particular never reaches the
output write (the result is never `.ok`, which is the only outcome in which
the output file is written). -/
theorem concatenate_empty_list_value_error (read : String → Option String)
    (writeOk : Bool) :
    concatenate_file_list read writeOk [] =
      .error (.valueError "No files to concatenate.") ∧
    ∀ s, concatenate_file_list read writeOk [] ≠ Except.ok s := by
  constructor
  · rfl
  · intro s h
    simp [concatenate_file_list] at h

/-- Witness for C7 at a concrete read oracle. -/
theorem concatenate_empty_list_value_error_witness :
    concatenate_file_list (fun _ => none) true [] =
      .error (.valueError "No files to concatenate.") :=
  (concatenate_empty_list_value_error (fun _ => none) true).1

/-- C1: for every non-empty path list, the output written is exactly, for each
file whose read succeeds and in list order, the header line
`--- File: <basename> ---`, a blank line, the file's full text, then two
newline separators (`spec_output` is built from the spec's wording). -/
theorem concatenate_output_format (read : String → Option String)
    (paths : List String) (h : paths ≠ []) :
    concatenate_file_list read true paths = .ok (spec_output read paths) :=
  concat_ok read paths h

/-- Witness for C1: the spec's three-file example produces exactly the string
the claim displays. -/
theorem concatenate_output_format_witness :
    concatenate_file_list exampleRead true ["a.txt", "b.txt", "c.md"] =
      .ok "--- File: a.txt ---\n\nA\n\n--- File: b.txt ---\n\nB\n\n--- File: c.md ---\n\nC\n\n" := by
  have h := concatenate_output_format exampleRead ["a.txt", "b.txt", "c.md"] (by decide)
  rw [h]
  congr 1

/-- C8: a read failure on one file does not abort the run: the output equals
the output on the list with the failing file removed, and the call still
succeeds, so every remaining readable file's content appears in order. -/
theorem concatenate_skips_failed_read (read : String → Option String)
    (bad : String) (l₁ l₂ : List String) (hbad : read bad = none)
    (hne : l₁ ++ l₂ ≠ []) :
    concatenate_file_list read true (l₁ ++ bad :: l₂) =
      concatenate_file_list read true (l₁ ++ l₂) ∧
    ∃ s, concatenate_file_list read true (l₁ ++ l₂) = Except.ok s := by
  have hne2 : l₁ ++ bad :: l₂ ≠ [] := by cases l₁ <;> simp
  rw [concat_ok read _ hne2, concat_ok read _ hne]
  refine ⟨?_, _, rfl⟩
  rw [spec_output_append, spec_output_append, spec_output_cons]
  simp [specChunk, hbad]

/-- Witness for C8: with the second of three files missing, the first and
third files' content still appears. -/
theorem concatenate_skips_failed_read_witness :
    concatenate_file_list exampleRead2 true (["a.txt"] ++ "missing.txt" :: ["c.md"]) =
      concatenate_file_list exampleRead2 true (["a.txt"] ++ ["c.md"]) ∧
    ∃ s, concatenate_file_list exampleRead2 true (["a.txt"] ++ ["c.md"]) = Except.ok s :=
  concatenate_skips_failed_read exampleRead2 "missing.txt" ["a.txt"] ["c.md"]
    (by decide) (by decide)

/-- C10: on a non-empty list in which every read fails, the call does not
raise: it still performs the final write and the output file's content is the
empty string. -/
theorem concatenate_all_failed_writes_empty (read : String → Option String)
    (paths : List String) (hne : paths ≠ []) (hall : ∀ p ∈ paths, read p = none) :
    concatenate_file_list read true paths = .ok "" := by
  rw [concat_ok read paths hne, spec_output_all_none read paths hall]

/-- Witness for C10 at a one-element list whose file cannot be read. -/
theorem concatenate_all_failed_writes_empty_witness :
    concatenate_file_list (fun _ => none) true ["x.txt"] = .ok "" :=
  concatenate_all_failed_writes_empty (fun _ => none) ["x.txt"] (by decide)
    (fun p _ => rfl)

end Concatenator

namespace Concatenator

lemma processLine_not_skip (w : World) (bd raw : String)
    (h : effectiveLine raw = true) :
    processLine w bd raw ≠ .skipBlank ∧ processLine w bd raw ≠ .skipComment := by
  simp only [effectiveLine, Bool.and_eq_true, Bool.not_eq_true', beq_eq_false_iff_ne,
    ne_eq] at h
  obtain ⟨h1, h2⟩ := h
  simp only [processLine, h1, if_false, h2, Bool.false_eq_true]
  split <;> simp
  split <;> simp

lemma processLine_skip_of_not_effective (w : World) (bd raw : String)
    (h : effectiveLine raw = false) :
    processLine w bd raw = .skipBlank ∨ processLine w bd raw = .skipComment := by
  by_cases h1 : pyStrip raw = ""
  · exact Or.inl (by simp [processLine, h1])
  · cases hc : (startsWithChar (pyStrip raw) '#' || startsWithChar (pyStrip raw) ';') with
    | true => exact Or.inr (by simp [processLine, h1, hc])
    | false => simp [effectiveLine, h1, hc] at h

lemma reportTotal_step (w : World) (bd : String) (ex : List String)
    (st : Report) (raw : String) :
    reportTotal (stepLine w bd ex st raw) =
      reportTotal st + (if effectiveLine raw then 1 else 0) := by
  by_cases he : effectiveLine raw = true
  · obtain ⟨h1, h2⟩ := processLine_not_skip w bd raw he
    rw [if_pos he]
    cases hp : processLine w bd raw with
    | skipBlank => exact absurd hp h1
    | skipComment => exact absurd hp h2
    | skippedNotAllowed t => simp [stepLine, hp, reportTotal]; omega
    | notFound t => simp [stepLine, hp, reportTotal]; omega
    | resolved c =>
        simp only [stepLine, hp]
        split <;> simp [reportTotal] <;> omega
  · have he2 : effectiveLine raw = false := by
      revert he; cases effectiveLine raw <;> simp
    rcases processLine_skip_of_not_effective w bd raw he2 with hp | hp <;>
      simp [stepLine, hp, he2]

lemma reportTotal_foldl (w : World) (bd : String) (ex : List String)
    (lines : List String) :
    ∀ st, reportTotal (List.foldl (stepLine w bd ex) st lines) =
      reportTotal st + (lines.filter effectiveLine).length := by
  induction lines with
  | nil => intro st; simp
  | cons raw rest ih =>
    intro st
    rw [List.foldl_cons, ih, reportTotal_step, List.filter_cons]
    by_cases he : effectiveLine raw = true <;> (simp [he]; try omega)

/-- C4: every non-blank, non-comment manifest line is recorded in exactly one
of the four report sequences: over any world, selection and manifest, the four
lists' total length equals the number of effective lines, and an effective
line is never classified as a silent skip. -/
theorem import_report_partition (w : World) (sel : List String) (bd : String)
    (lines : List String) :
    reportTotal (parse_file_list w sel bd lines) =
      (lines.filter effectiveLine).length ∧
    ∀ raw, effectiveLine raw = true →
      processLine w bd raw ≠ .skipBlank ∧ processLine w bd raw ≠ .skipComment := by
  constructor
  · simp only [parse_file_list]
    rw [reportTotal_foldl]
    simp [reportTotal]
  · exact fun raw h => processLine_not_skip w bd raw h

/-- Witness for C4 on a concrete three-line manifest (one comment, one blank,
one valid path): exactly one entry lands in the four lists in total. -/
theorem import_report_partition_witness :
    reportTotal (parse_file_list idWorld [] "" ["# comment", "   ", "/x/a.txt"]) = 1 ∧
    processLine idWorld "" "/x/a.txt" ≠ .skipBlank := by
  constructor
  · rw [(import_report_partition idWorld [] "" ["# comment", "   ", "/x/a.txt"]).1]
    decide
  · exact ((import_report_partition idWorld [] "" ["# comment", "   ", "/x/a.txt"]).2
      "/x/a.txt" (by decide)).1

lemma added_inv_step (w : World) (bd : String) (ex : List String)
    (st : Report) (raw : String)
    (h1 : (st.added_paths.map (norm w)).Nodup)
    (h2 : ∀ p ∈ st.added_paths, norm w p ∉ ex) :
    ((stepLine w bd ex st raw).added_paths.map (norm w)).Nodup ∧
    ∀ p ∈ (stepLine w bd ex st raw).added_paths, norm w p ∉ ex := by
  cases hp : processLine w bd raw with
  | skipBlank => simpa [stepLine, hp] using ⟨h1, h2⟩
  | skipComment => simpa [stepLine, hp] using ⟨h1, h2⟩
  | skippedNotAllowed t => simpa [stepLine, hp] using ⟨h1, h2⟩
  | notFound t => simpa [stepLine, hp] using ⟨h1, h2⟩
  | resolved c =>
    simp only [stepLine, hp]
    cases hd : (ex.contains (norm w c) ||
        st.added_paths.any (fun p => norm w p == norm w c)) with
    | true => simpa [hd] using ⟨h1, h2⟩
    | false =>
      have hor := Bool.or_eq_false_iff.mp hd
      have hnotmem : norm w c ∉ st.added_paths.map (norm w) := by
        have hany := hor.2
        simp only [List.any_eq_false, beq_iff_eq] at hany
        intro hmem
        obtain ⟨p, hp2, hpe⟩ := List.mem_map.mp hmem
        exact hany p hp2 hpe
      have hnex : norm w c ∉ ex := by
        have hexf := hor.1
        intro hmem
        simp_all
      constructor
      · simp only [hd, Bool.false_eq_true, if_false, List.map_append, List.map_cons,
          List.map_nil]
        rw [List.nodup_append]
        refine ⟨h1, List.nodup_singleton _, ?_⟩
        simpa using fun hmem => hnotmem hmem
      · intro p hpmem
        simp only [hd, Bool.false_eq_true, if_false, List.mem_append,
          List.mem_singleton] at hpmem
        rcases hpmem with hpmem | rfl
        · exact h2 p hpmem
        · exact hnex

lemma added_inv_foldl (w : World) (bd : String) (ex : List String)
    (lines : List String) :
    ∀ st, (st.added_paths.map (norm w)).Nodup →
      (∀ p ∈ st.added_paths, norm w p ∉ ex) →
      ((List.foldl (stepLine w bd ex) st lines).added_paths.map (norm w)).Nodup ∧
      ∀ p ∈ (List.foldl (stepLine w bd ex) st lines).added_paths, norm w p ∉ ex := by
  induction lines with
  | nil => exact fun st a b => ⟨a, b⟩
  | cons raw rest ih =>
    intro st a b
    rw [List.foldl_cons]
    obtain ⟨a2, b2⟩ := added_inv_step w bd ex st raw a b
    exact ih _ a2 b2

/-- C6: no path is added whose normalized form (`norm`) equals that of an
existing selection entry or of an earlier addition of the same call — the
normalized added paths are pairwise distinct and disjoint from the normalized
existing selection; in particular a one-line manifest whose resolved candidate
is an allowed existing file already present in the selection yields zero
added and exactly one alreadyPresent entry for that path. -/
theorem import_no_duplicate_added (w : World) (sel : List String) (bd : String) :
    (∀ lines : List String,
      ((parse_file_list w sel bd lines).added_paths.map (norm w)).Nodup ∧
      ∀ p ∈ (parse_file_list w sel bd lines).added_paths,
        norm w p ∉ sel.map (norm w)) ∧
    (∀ raw c, processLine w bd raw = .resolved c →
      norm w c ∈ sel.map (norm w) →
      parse_file_list w sel bd [raw] = ⟨[], [c], [], []⟩) := by
  constructor
  · intro lines
    exact added_inv_foldl w bd (sel.map (norm w)) lines ⟨[], [], [], []⟩
      (by simp) (by simp)
  · intro raw c hp hmem
    simp [parse_file_list, stepLine, hp]
    obtain ⟨x, hx, he⟩ := List.mem_map.mp hmem
    exact ⟨x, hx, he⟩

/-- Witness for C6: importing a manifest naming a file already in the
selection yields zero added and one alreadyPresent entry. -/
theorem import_no_duplicate_added_witness :
    parse_file_list idWorld ["/x/a.txt"] "" ["/x/a.txt"] =
      ⟨[], ["/x/a.txt"], [], []⟩ :=
  (import_no_duplicate_added idWorld ["/x/a.txt"] "").2 "/x/a.txt" "/x/a.txt"
    (by decide) (by decide)

lemma skipped_foldl (w : World) (bd : String) (ex : List String)
    (lines : List String) :
    ∀ st, (List.foldl (stepLine w bd ex) st lines).skipped_not_allowed =
      st.skipped_not_allowed ++ lines.filterMap (fun raw =>
        match processLine w bd raw with
        | .skippedNotAllowed t => some t
        | _ => none) := by
  induction lines with
  | nil => intro st; simp
  | cons raw rest ih =>
    intro st
    rw [List.foldl_cons, ih, List.filterMap_cons]
    cases hp : processLine w bd raw with
    | skipBlank => simp [stepLine, hp]
    | skipComment => simp [stepLine, hp]
    | skippedNotAllowed t => simp [stepLine, hp]
    | notFound t => simp [stepLine, hp]
    | resolved c =>
      simp only [stepLine, hp]
      split <;> simp

lemma notFound_foldl (w : World) (bd : String) (ex : List String)
    (lines : List String) :
    ∀ st, (List.foldl (stepLine w bd ex) st lines).not_found =
      st.not_found ++ lines.filterMap (fun raw =>
        match processLine w bd raw with
        | .notFound t => some t
        | _ => none) := by
  induction lines with
  | nil => intro st; simp
  | cons raw rest ih =>
    intro st
    rw [List.foldl_cons, ih, List.filterMap_cons]
    cases hp : processLine w bd raw with
    | skipBlank => simp [stepLine, hp]
    | skipComment => simp [stepLine, hp]
    | skippedNotAllowed t => simp [stepLine, hp]
    | notFound t => simp [stepLine, hp]
    | resolved c =>
      simp only [stepLine, hp]
      split <;> simp

lemma processLine_recorded_text (w : World) (bd raw t : String)
    (h : processLine w bd raw = .skippedNotAllowed t ∨
         processLine w bd raw = .notFound t) :
    t = w.expandvars (w.expanduser (stripQuotes (pyStrip raw))) := by
  by_cases h1 : pyStrip raw = ""
  · rcases h with h | h <;> simp [processLine, h1] at h
  · cases h2 : (startsWithChar (pyStrip raw) '#' ||
        startsWithChar (pyStrip raw) ';') with
    | true => rcases h with h | h <;> simp [processLine, h1, h2] at h
    | false =>
      cases h3 : is_allowed (resolveLine w bd
          (w.expandvars (w.expanduser (stripQuotes (pyStrip raw))))) with
      | false =>
        rcases h with h | h
        · simp [processLine, h1, h2, h3] at h
          exact h.symm
        · simp [processLine, h1, h2, h3] at h
      | true =>
        cases h4 : w.isfile (resolveLine w bd
            (w.expandvars (w.expanduser (stripQuotes (pyStrip raw))))) with
        | false =>
          rcases h with h | h
          · simp [processLine, h1, h2, h3, h4] at h
          · simp [processLine, h1, h2, h3, h4] at h
            exact h.symm
        | true => rcases h with h | h <;> simp [processLine, h1, h2, h3, h4] at h

/-- C2 (amended): the texts recorded in skippedNotAllowed and notFound are
exactly, per manifest line and in order, the line after trimming,
quote-stripping and environment/home expansion — pre-resolution against the
manifest directory, but not the original trimmed line text. -/
theorem import_recorded_text (w : World) (sel : List String) (bd : String)
    (lines : List String) :
    ((parse_file_list w sel bd lines).skipped_not_allowed =
      lines.filterMap (fun raw =>
        match processLine w bd raw with
        | .skippedNotAllowed t => some t
        | _ => none)) ∧
    ((parse_file_list w sel bd lines).not_found =
      lines.filterMap (fun raw =>
        match processLine w bd raw with
        | .notFound t => some t
        | _ => none)) ∧
    (∀ raw t,
      (processLine w bd raw = .skippedNotAllowed t ∨
       processLine w bd raw = .notFound t) →
      t = w.expandvars (w.expanduser (stripQuotes (pyStrip raw)))) := by
  refine ⟨?_, ?_, fun raw t h => processLine_recorded_text w bd raw t h⟩
  · simp [parse_file_list, skipped_foldl]
  · simp [parse_file_list, notFound_foldl]

/-- Counterexample for C2 as stated: for the quoted manifest line
`"file.xyz"` the recorded skippedNotAllowed text is `file.xyz`, which differs
from the original trimmed line text (the quotes have been stripped before
recording). -/
theorem import_recorded_text_counterexample :
    (parse_file_list idWorld [] "" ["\"file.xyz\""]).skipped_not_allowed =
      ["file.xyz"] ∧
    pyStrip "\"file.xyz\"" = "\"file.xyz\"" ∧
    ("file.xyz" : String) ≠ "\"file.xyz\"" := by
  decide

/-- Witness for C2 (amended) at the quoted manifest line. -/
theorem import_recorded_text_witness :
    ("file.xyz" : String) =
      idWorld.expandvars (idWorld.expanduser (stripQuotes (pyStrip "\"file.xyz\""))) :=
  (import_recorded_text idWorld [] "" ["\"file.xyz\""]).2.2 "\"file.xyz\"" "file.xyz"
    (Or.inl (by decide))

/-- C3 (amended): when every attempted encoding fails to decode the manifest,
the import call does not raise — it returns a report with all four sequences
empty (the source shows an error dialog and returns the empty dict,
src/concatenator.py lines 335-338). -/
theorem import_decode_failure_empty_report (w : World) (preferred : String)
    (attempt : String → Attempt) (sel : List String) (bd : String)
    (h : ∀ enc, attempt enc = .unicodeError) :
    parse_file_list_full w preferred attempt sel bd = .ok ⟨[], [], [], []⟩ := by
  simp [parse_file_list_full, readListLines, encodingsList, h]

/-- Counterexample for C3 as stated: with an oracle under which every encoding
attempt raises UnicodeDecodeError, the call returns a report (the empty one)
instead of failing with a DecodeError. -/
theorem import_decode_failure_counterexample :
    parse_file_list_full idWorld "cp1252" (fun _ => .unicodeError) [] "" =
      .ok ⟨[], [], [], []⟩ ∧
    ∀ e : Unit,
      parse_file_list_full idWorld "cp1252" (fun _ => .unicodeError) [] "" ≠
        .error e := by
  have h0 : parse_file_list_full idWorld "cp1252" (fun _ => .unicodeError) [] "" =
      .ok ⟨[], [], [], []⟩ := rfl
  refine ⟨h0, fun e h => ?_⟩
  rw [h0] at h
  exact Except.noConfusion h

/-- Witness for C3 (amended) at a concrete world, preferred encoding and
selection. -/
theorem import_decode_failure_empty_report_witness :
    parse_file_list_full idWorld "utf-8" (fun _ => .unicodeError) ["/x/a.txt"] "/tmp" =
      .ok ⟨[], [], [], []⟩ :=
  import_decode_failure_empty_report idWorld "utf-8" (fun _ => .unicodeError)
    ["/x/a.txt"] "/tmp" (fun _ => rfl)

lemma toNat_lowerChar_shift (c : Char) (h : 65 ≤ c.toNat ∧ c.toNat ≤ 90) :
    (lowerChar c).toNat = c.toNat + 32 := by
  have hv : (c.toNat + 32).isValidChar := Or.inl (by omega)
  unfold lowerChar
  rw [if_pos h]
  unfold Char.ofNat
  rw [dif_pos hv]
  simp [Char.ofNatAux, Char.toNat, UInt32.toNat]

lemma digChar_lowerChar (c : Char) : digChar (lowerChar c) = digChar c := by
  by_cases h : 65 ≤ c.toNat ∧ c.toNat ≤ 90
  · have ht := toNat_lowerChar_shift c h
    have hc1 : digChar (lowerChar c) = false := by
      simp [digChar, ht]
      omega
    have hc2 : digChar c = false := by
      simp [digChar]
      omega
    rw [hc1, hc2]
  · simp [lowerChar, h]

lemma lowerChar_digit (c : Char) (h : digChar c = true) : lowerChar c = c := by
  simp [digChar] at h
  have hno : ¬(65 ≤ c.toNat ∧ c.toNat ≤ 90) := by omega
  simp [lowerChar, hno]

lemma runsOf_map_lowerChar (l : List Char) :
    runsOf (l.map lowerChar) =
      (runsOf l).map (fun p => (p.1, p.2.map lowerChar)) := by
  induction l with
  | nil => rfl
  | cons c cs ih =>
    cases hr : runsOf cs with
    | nil => simp [runsOf, ih, hr, digChar_lowerChar]
    | cons p rest =>
      obtain ⟨b, r⟩ := p
      by_cases hb : digChar c = b
      · simp [runsOf, ih, hr, digChar_lowerChar, hb]
      · simp [runsOf, ih, hr, digChar_lowerChar, hb]

lemma runsOf_digits (l : List Char) :
    ∀ p ∈ runsOf l, ∀ c ∈ p.2, digChar c = p.1 := by
  induction l with
  | nil => intro p hp; simp [runsOf] at hp
  | cons c cs ih =>
    intro p hp c2 hc2
    cases hr : runsOf cs with
    | nil =>
      simp only [runsOf, hr] at hp
      simp at hp
      subst hp
      simp at hc2
      subst hc2
      rfl
    | cons p0 rest =>
      obtain ⟨b, r⟩ := p0
      simp only [runsOf, hr] at hp
      by_cases hb : digChar c = b
      · rw [if_pos hb] at hp
        rcases List.mem_cons.mp hp with hp | hp
        · subst hp
          rcases List.mem_cons.mp hc2 with rfl | hc2
          · exact hb
          · exact ih (b, r) (by rw [hr]; exact List.mem_cons_self _ _) c2 hc2
        · exact ih p (by rw [hr]; exact List.mem_cons_of_mem _ hp) c2 hc2
      · rw [if_neg hb] at hp
        rcases List.mem_cons.mp hp with hp | hp
        · subst hp
          simp at hc2
          subst hc2
          rfl
        · exact ih p (by rw [hr]; exact hp) c2 hc2

lemma cmpNat_self (a : Nat) : cmpNat a a = .eq := by
  simp [cmpNat]

lemma cmpChars_self (l : List Char) : cmpChars l l = .eq := by
  induction l with
  | nil => rfl
  | cons c cs ih => simp [cmpChars, cmpNat_self, ih]

lemma cmpRuns_eq_of_lower : ∀ ra rb : List (Bool × List Char),
    (∀ p ∈ ra, ∀ c ∈ p.2, digChar c = p.1) →
    (∀ p ∈ rb, ∀ c ∈ p.2, digChar c = p.1) →
    ra.map (fun p => (p.1, p.2.map lowerChar)) =
      rb.map (fun p => (p.1, p.2.map lowerChar)) →
    cmpRuns false ra rb = .eq := by
  intro ra
  induction ra with
  | nil =>
    intro rb _ _ h
    cases rb with
    | nil => rfl
    | cons q qs => simp at h
  | cons p ps ih =>
    intro rb h1 h2 h
    cases rb with
    | nil => simp at h
    | cons q qs =>
      obtain ⟨b1, r1⟩ := p
      obtain ⟨b2, r2⟩ := q
      simp only [List.map_cons, List.cons.injEq, Prod.mk.injEq] at h
      obtain ⟨⟨hb, hr⟩, hrest⟩ := h
      subst hb
      have hstep : cmpRun false (b1, r1) (b1, r2) = .eq := by
        cases b1 with
        | false => simp [cmpRun, hr, cmpChars_self]
        | true =>
          have e1 : r1.map lowerChar = r1 := by
            have hall : ∀ c ∈ r1, lowerChar c = c := fun c hc =>
              lowerChar_digit c (h1 (true, r1) (by simp) c hc)
            calc r1.map lowerChar = r1.map id := List.map_congr_left hall
            _ = r1 := List.map_id r1
          have e2 : r2.map lowerChar = r2 := by
            have hall : ∀ c ∈ r2, lowerChar c = c := fun c hc =>
              lowerChar_digit c (h2 (true, r2) (by simp) c hc)
            calc r2.map lowerChar = r2.map id := List.map_congr_left hall
            _ = r2 := List.map_id r2
          rw [e1, e2] at hr
          simp [cmpRun, hr, cmpNat_self]
      simp only [cmpRuns, hstep]
      exact ih qs (fun p hp c hc => h1 p (List.mem_cons_of_mem _ hp) c hc)
        (fun p hp c hc => h2 p (List.mem_cons_of_mem _ hp) c hc) hrest

/-- C5 (spec-modelled): in the natural-order comparator, non-digit runs
compare case-insensitively by default, so two strings that differ only in
letter case are equal-ranked by the comparison the sort uses. -/
theorem natural_compare_case_insensitive (a b : String)
    (h : lowerStr a = lowerStr b) : natCompare a b = .eq := by
  have hd : a.data.map lowerChar = b.data.map lowerChar := by
    have hc := congrArg String.data h
    simpa [lowerStr] using hc
  have hm : (runsOf a.data).map (fun p => (p.1, p.2.map lowerChar)) =
      (runsOf b.data).map (fun p => (p.1, p.2.map lowerChar)) := by
    rw [← runsOf_map_lowerChar, ← runsOf_map_lowerChar, hd]
  exact cmpRuns_eq_of_lower (runsOf a.data) (runsOf b.data)
    (runsOf_digits a.data) (runsOf_digits b.data) hm

/-- Witness for C5: two strings differing only in letter case compare equal. -/
theorem natural_compare_case_insensitive_witness :
    natCompare "Img2.TXT" "img2.txt" = .eq :=
  natural_compare_case_insensitive "Img2.TXT" "img2.txt" (by decide)

end Concatenator

